import Mathlib

/-!
Verification of the sigmatrader broker-session client against its
specification.  The Python sources are shallowly embedded: each Python
function that a claim mentions is translated into an executable Lean
definition over explicit data (dicts become association lists, `None`
becomes `Option.none`, a raised exception becomes `Except.error`), and
the claims are proved or refuted about those definitions.
-/

/- ---------------------------------------------------------------------
   String primitives.

   Lean's builtin `String` functions do not reduce well in the kernel, so
   the Python string operations used by the sources are re-implemented
   here on `List Char`.  Python compares strings lexicographically by
   code point; `Char.toNat` is the code point.
--------------------------------------------------------------------- -/

/-- Python `a < b` on strings: strict lexicographic order by code point. -/
def charsLt : List Char → List Char → Bool
  | [], [] => false
  | [], _ :: _ => true
  | _ :: _, [] => false
  | a :: as, b :: bs =>
    if a.toNat < b.toNat then true
    else if b.toNat < a.toNat then false
    else charsLt as bs

/-- Python `a <= b` on strings. -/
def charsLe (a b : List Char) : Bool := !(charsLt b a)

/-- Python substring test `needle in haystack` (contiguous substring). -/
def containsSub (needle : List Char) : List Char → Bool
  | [] => needle.isPrefixOf []
  | c :: cs => needle.isPrefixOf (c :: cs) || containsSub needle cs

/-- Python `s.split(sep)` for a single-character separator `sep`
(`"".split(".") = [""]`, `"a..b".split(".") = ["a","","b"]`). -/
def splitChar (sep : Char) : List Char → List (List Char)
  | [] => [[]]
  | c :: cs =>
    let r := splitChar sep cs
    if c == sep then [] :: r
    else
      match r with
      | h :: t => (c :: h) :: t
      | [] => [[c]]

/-- Python `s.upper()` (the account-type strings are ASCII, where
`Char.toUpper` agrees with Python). -/
def pyUpper (s : String) : String := String.mk (s.data.map Char.toUpper)

/-- Python `s.strip()` restricted to the ASCII whitespace characters
(space, tab, CR, LF) — the only ones the embedded claims exercise. -/
def pyStrip (s : String) : String :=
  String.mk (((s.data.dropWhile Char.isWhitespace).reverse.dropWhile
      Char.isWhitespace).reverse)

/-- Python `s.startswith(p)`. -/
def pyStartsWith (s p : String) : Bool := p.data.isPrefixOf s.data

/-- Association-list lookup by string key, modelling a Python dict read
(`d.get(k)` / `k in d`).  Keys of a Python dict are unique; the models
take that as a hypothesis where a claim needs it. -/
def alookup (k : String) : List (String × β) → Option β
  | [] => none
  | e :: es => if e.1.data == k.data then some e.2 else alookup k es

/- ---------------------------------------------------------------------
   src/iqoption/ativos.py
--------------------------------------------------------------------- -/

/-- `ativos.py` `TIMEFRAMES`: timeframe (minutes) → duration (seconds).
Only key membership and the normalisation to 1 are used downstream. -/
def TIMEFRAMES : List (Nat × Nat) :=
  [(1, 60), (5, 300), (15, 900), (30, 1800), (60, 3600), (240, 14400)]

/-- `ativos.py` `MERCADO_PARA_TIPOS_API`. -/
def MERCADO_PARA_TIPOS_API : List (String × List String) :=
  [("Digital", ["digital"]), ("Binário/Turbo", ["binary", "turbo"]),
   ("Forex", ["forex"]), ("Cripto", ["crypto"])]

/-- The open/closed map returned by `api.get_all_open_time()`:
category → (symbol → `open` flag).  The Python payload stores each
status as a dict `{"open": bool}`; the well-typed embedding keeps only
the flag that `status_info.get('open', False)` reads. -/
abbrev OpenMap := List (String × List (String × Bool))

/-- The payload of `api.get_all_init()`: the `isSuccessful` flag and
`result`: category → `actives`: id → the active's `"name"` field (the
only field read, via `ativo_data.get("name", "")`). -/
structure InitInfo where
  isSuccessful : Bool
  result : List (String × List (Nat × String))
deriving DecidableEq

/-- One entry of `api.get_all_profit()`: the `"turbo"` and `"binary"`
payout fractions when present. -/
structure ProfitEntry where
  turbo : Option ℚ
  binary : Option ℚ
deriving DecidableEq

abbrev ProfitMap := List (String × ProfitEntry)

/-- The behaviour of the connected-API object as seen by
`listar_ativos_abertos_com_payout`: each call either raises
(`Except.error`) or returns a value.  A falsy return (`None` / empty
dict) of `get_all_open_time` is modelled by the empty list; a falsy
return of `get_all_init` by `Option.none`. -/
structure ApiAtivos where
  checkConnect : Bool
  getAllOpenTime : Except Unit OpenMap
  getAllInit : Except Unit (Option InitInfo)
  getAllProfit : Except Unit ProfitMap

/-- Python `round` (banker's rounding, half to even) on an exact
rational; `int(round(x))` in the source. -/
def pyRound (q : ℚ) : Int :=
  let f := ⌊q⌋
  let r := q - f
  if r < 1/2 then f
  else if 1/2 < r then f + 1
  else if f % 2 = 0 then f else f + 1

/-- `ativo_data.get("name", "").split(".")[-1]` — the short asset name. -/
def nomeCurto (name : String) : String :=
  String.mk ((splitChar '.' name.data).getLastD [])

/-- The `is_open` computation of the Binary/Turbo loop: the symbol's
`open` flag in the raw open map, defaulting to `False` when the category
or the symbol is absent. -/
def isOpenIn (raw : OpenMap) (tipo nome : String) : Bool :=
  match alookup tipo raw with
  | some d =>
    match alookup nome d with
    | some b => b
    | none => false
  | none => false

/-- `payout_info.get("turbo", payout_info.get("binary"))` followed by
`int(round(payout_dec * 100))`; `None` when the symbol has no profit
entry or the entry has neither field.  (A `"turbo"` key present with the
value `null` cannot be distinguished from an absent key in this typed
model; no claim depends on that case.) -/
def payoutOf (profits : ProfitMap) (nome : String) : Option Int :=
  match alookup nome profits with
  | none => none
  | some pe =>
    match pe.turbo <|> pe.binary with
    | none => none
    | some q => some (pyRound (q * 100))

/-- One iteration of the Binary/Turbo inner loop over
`init_info["result"][tipo_api]["actives"].items()`.  The state is the
accumulated `(name, payout)` list together with `ativos_abertos_set`
(kept as a list of the names already added). -/
def addActive (raw : OpenMap) (profits : ProfitMap) (tipo : String)
    (st : List (String × Option Int) × List String) (act : Nat × String) :
    List (String × Option Int) × List String :=
  let nome := nomeCurto act.2
  if nome.data == [] || st.2.any (fun n => n.data == nome.data) then st
  else if isOpenIn raw tipo nome then
    (st.1 ++ [(nome, payoutOf profits nome)], st.2 ++ [nome])
  else st

/-- The Binary/Turbo branch: iterate the categories (`binary`, `turbo`),
skipping a category absent from `init_info["result"]`. -/
def binarioTurboEntries (raw : OpenMap) (ii : InitInfo) (profits : ProfitMap)
    (tipos : List String) : List (String × Option Int) :=
  (tipos.foldl (fun st tipo =>
    match alookup tipo ii.result with
    | some actives => actives.foldl (addActive raw profits tipo) st
    | none => st) ([], [])).1

/-- The open symbols of one category of the raw open map. -/
def openNames (raw : OpenMap) (tipo : String) : List String :=
  match alookup tipo raw with
  | some d => (d.filter (fun p => p.2)).map Prod.fst
  | none => []

/-- Total order used by Python `sorted` on plain symbol names. -/
def strRel : String → String → Prop := fun a b => charsLe a.data b.data = true

instance : DecidableRel strRel :=
  fun a b => instDecidableEqBool (charsLe a.data b.data) true

/-- The sort key of the final `sorted(...)` call of
`listar_ativos_abertos_com_payout`, compared lexicographically:
`(-(payout if payout is not None else -1), 1 if "-OTC" in name else 0,
name)`.  Note the source tests `"-OTC" in item[0]`, i.e. substring
containment anywhere in the symbol, not only as a suffix. -/
def payoutRank (e : String × Option Int) : Int :=
  match e.2 with
  | some p => p
  | none => -1

def otcRank (s : String) : Nat :=
  if containsSub ("-OTC".data) s.data then 1 else 0

def keyLe (a b : String × Option Int) : Bool :=
  if -(payoutRank a) < -(payoutRank b) then true
  else if -(payoutRank b) < -(payoutRank a) then false
  else if otcRank a.1 < otcRank b.1 then true
  else if otcRank b.1 < otcRank a.1 then false
  else charsLe a.1.data b.1.data

def keyRel : (String × Option Int) → (String × Option Int) → Prop :=
  fun a b => keyLe a b = true

instance : DecidableRel keyRel :=
  fun a b => instDecidableEqBool (keyLe a b) true

/-- The `init_info` normalisation of step 1.5: an exception, a falsy
return, or `isSuccessful` false all leave `init_info = None`. -/
def initInfoOf (api : ApiAtivos) : Option InitInfo :=
  match api.getAllInit with
  | .error _ => none
  | .ok none => none
  | .ok (some ii) => if ii.isSuccessful then some ii else none

/-- `get_all_profit()` with an exception or falsy return treated as the
empty dict. -/
def profitsOf (api : ApiAtivos) : ProfitMap :=
  match api.getAllProfit with
  | .error _ => []
  | .ok ps => ps

/-- The Digital branch: the open names of the `digital` category,
sorted, each with payout `None`. -/
def digitalEntries (raw : OpenMap) : List (String × Option Int) :=
  ((openNames raw "digital").insertionSort strRel).map (fun n => (n, none))

/-- The generic branch (Forex, Cripto, and Binário/Turbo without init
data): the open names of every category, deduplicated (`set(...)`),
sorted, each with payout `None`. -/
def outrosEntries (raw : OpenMap) (tipos : List String) :
    List (String × Option Int) :=
  ((tipos.foldl (fun acc tipo => acc ++ openNames raw tipo)
    []).dedup.insertionSort strRel).map (fun n => (n, none))

/-- `ativos.py` `listar_ativos_abertos_com_payout(api, mercado_foco,
timeframe)`.  `none` models the Python return value `None` (error /
API not connected); `some l` models a returned list of
`(nome_ativo, payout_percentual)` tuples.  Python's `sorted` is a
stable sort by key; it is modelled by `List.insertionSort`, which is
also stable, and the orders used are total, so the results agree. -/
def listar_ativos_abertos_com_payout (api : ApiAtivos) (mercado_foco : String)
    (timeframe : Nat) : Option (List (String × Option Int)) :=
  if !api.checkConnect then none
  else
    -- timeframe validation: unknown timeframes fall back to 1
    let tf := if (TIMEFRAMES.lookup timeframe).isSome then timeframe else 1
    let tipos := (alookup mercado_foco MERCADO_PARA_TIPOS_API).getD []
    if tipos.isEmpty then some []   -- unsupported market: empty list
    else
      match api.getAllOpenTime with
      | .error _ => none            -- exception from get_all_open_time
      | .ok ativos_raw =>
        if ativos_raw.isEmpty then some []  -- falsy open map
        else
          -- get_all_init, only for Binário/Turbo; any failure → None
          let init_info : Option InitInfo :=
            if mercado_foco.data == "Binário/Turbo".data then initInfoOf api
            else none
          let detalhes : List (String × Option Int) :=
            if mercado_foco.data == "Binário/Turbo".data && init_info.isSome then
              binarioTurboEntries ativos_raw (init_info.getD ⟨false, []⟩)
                (profitsOf api) tipos
            else if mercado_foco.data == "Digital".data then
              digitalEntries ativos_raw
            else
              outrosEntries ativos_raw tipos
          -- timeframe filter: the `ativos_problematicos` set is empty in
          -- the source, so both branches keep every entry
          let ativos_problematicos : List String := []
          let detalhes2 := if tf = 1 then detalhes
            else detalhes.filter
              (fun e => !(ativos_problematicos.any (fun n => n.data == e.1.data)))
          some (detalhes2.insertionSort keyRel)

/- ---------------------------------------------------------------------
   src/iqoption/analisador_ativos.py — AnalisadorAtivos.buscar_ativos_payouts
--------------------------------------------------------------------- -/

/-- Python dict assignment `d[k] = v` on an insertion-ordered dict. -/
def dictAssign (d : List (String × Int)) (k : String) (v : Int) :
    List (String × Int) :=
  if (alookup k d).isSome then
    d.map (fun e => if e.1.data == k.data then (e.1, v) else e)
  else d ++ [(k, v)]

/-- One loop iteration of `buscar_ativos_payouts`: Python evaluates
`payout >= payout_minimo`, which raises a `TypeError` when `payout` is
`None` (modelled by `Except.error ()`); on a true comparison the dict
gains the entry. -/
def buscarStep (payout_minimo : Int) (d : List (String × Int))
    (e : String × Option Int) : Except Unit (List (String × Int)) :=
  match e.2 with
  | none => Except.error ()          -- None >= int : TypeError
  | some p =>
    if payout_minimo ≤ p then Except.ok (dictAssign d e.1 p)
    else Except.ok d

/-- `AnalisadorAtivos.buscar_ativos_payouts(tipo_mercado, payout_minimo)`.
`Except.error ()` models the uncaught `TypeError`; `Except.ok none`
models the pass-through of the resolver's `None`; `Except.ok (some d)`
models the returned dict. -/
def buscar_ativos_payouts (api : ApiAtivos) (tipo_mercado : String)
    (payout_minimo : Int) : Except Unit (Option (List (String × Int))) :=
  match listar_ativos_abertos_com_payout api tipo_mercado 1 with
  | none => .ok none
  | some l =>
    (l.foldlM (buscarStep payout_minimo) ([] : List (String × Int))).map some

/- ---------------------------------------------------------------------
   src/iqoption/login.py — LoginIQOption
--------------------------------------------------------------------- -/

/-- `login.py` `TIPO_CONTA`. -/
def TIPO_CONTA : List (String × String) :=
  [("REAL", "REAL"), ("TREINAMENTO", "PRACTICE"), ("TORNEIO", "TOURNAMENT")]

/-- The mutable fields of a `LoginIQOption` instance that
`_selecionar_tipo_conta` / `_atualizar_saldo` touch.  `saldo` is
`Option ℚ` because `self.saldo = api.get_balance()` can store `None`;
the initial value is `some 0` (`0.0`). -/
structure LoginState where
  conectado : Bool
  tipo_conta : Option String
  saldo : Option ℚ
  moeda : Option String
  ultimo_erro : Option String
deriving DecidableEq

/-- The broker-API calls issued by account selection and balance
refresh; `Except.error` models a raised exception. -/
structure LoginApi where
  get_balance : Except Unit (Option ℚ)
  get_currency : Except Unit (Option String)
  get_balance_mode : Except Unit String
  change_balance : String → Except Unit Bool

/-- `LoginIQOption._atualizar_saldo`.  Returns the Python boolean result
and the state after the call.  Faithful details: the reads are assigned
to `self.saldo` / `self.moeda` **before** the `None` check, so a null
read overwrites the stored values; the `except` clause sets
`self.saldo = 0.0` and `self.moeda = None`; `self.ultimo_erro` is never
touched (the error is only logged). -/
def atualizar_saldo (api : LoginApi) (st : LoginState) : Bool × LoginState :=
  if !st.conectado then (false, st)
  else
    match api.get_balance with
    | .error _ => (false, { st with saldo := some 0, moeda := none })
    | .ok b =>
      match api.get_currency with
      | .error _ => (false, { st with saldo := some 0, moeda := none })
      | .ok c =>
        let st1 := { st with saldo := b, moeda := c }
        if b.isNone || c.isNone then (false, st1) else (true, st1)

/-- `LoginIQOption._selecionar_tipo_conta(tipo_conta)`.  The result is
`(returned bool, state after the call, list of account codes passed to
api.change_balance during the call)` — the last component counts the
switch requests issued.  Control flow from the source: an exception
from `get_balance_mode` falls through to the switch attempt; a matching
current mode refreshes the balance and never calls `change_balance`; a
falsy `change_balance` result or an exception from it returns failure
with the state unchanged; a truthy result followed by a failing balance
refresh sets `self.tipo_conta = None` and returns failure. -/
def selecionar_tipo_conta (api : LoginApi) (st : LoginState)
    (tipo_conta : String) : Bool × LoginState × List String :=
  if !st.conectado then (false, st, [])
  else
    let alvo := pyUpper tipo_conta
    let codigo := (alookup alvo TIPO_CONTA).getD "PRACTICE"
    let tentar_mudar : Bool × LoginState × List String :=
      match api.change_balance codigo with
      | .error _ => (false, st, [codigo])
      | .ok false => (false, st, [codigo])
      | .ok true =>
        match atualizar_saldo api st with
        | (true, st1) => (true, { st1 with tipo_conta := some alvo }, [codigo])
        | (false, st1) => (false, { st1 with tipo_conta := none }, [codigo])
    match api.get_balance_mode with
    | .error _ => tentar_mudar
    | .ok m =>
      if m.data == codigo.data then
        match atualizar_saldo api st with
        | (true, st1) => (true, { st1 with tipo_conta := some alvo }, [])
        | (false, st1) => (false, st1, [])
      else tentar_mudar

/- ---------------------------------------------------------------------
   src/dependencias/iqoptionapi/iqoptionapi/ws/client.py
--------------------------------------------------------------------- -/

/-- The cache addressed by `dict_queue_add`'s `(key1, key2)` pair: the
inner Python dict `dict[key1][key2]`, an insertion-ordered map from the
composite key (`key3`, e.g. a timestamp) to the cached value.  The
outer two levels only select which inner dict is mutated, so the model
works on the addressed inner dict directly. -/
abbrev InnerCache (V : Type) := List (Nat × V)

/-- The smallest key of the inner dict — `sorted(keys, reverse=False)[0]`
(the `headD` default is never read: callers only take the minimum of a
non-empty dict). -/
def minKeyOf (m : InnerCache V) : Nat :=
  ((m.map Prod.fst).insertionSort (· ≤ ·)).headD 0

/-- Python `del d[k]`: remove the (unique) entry with key `k`. -/
def removeKey (k : Nat) : InnerCache V → InnerCache V
  | [] => []
  | e :: es => if e.1 == k then es else e :: removeKey k es

/-- `del dict[key1][key2][sorted(dict[key1][key2].keys())[0]]`. -/
def delMin (m : InnerCache V) : InnerCache V := removeKey (minKeyOf m) m

/-- Python dict update at an existing key, preserving position. -/
def updateVal (m : InnerCache V) (k : Nat) (v : V) : InnerCache V :=
  m.map (fun e => if e.1 == k then (e.1, v) else e)

theorem minKeyOf_mem (m : InnerCache V) (h : m ≠ []) :
    minKeyOf m ∈ m.map Prod.fst := by
  have hperm := List.perm_insertionSort (α := Nat) (· ≤ ·) (m.map Prod.fst)
  have hne : (m.map Prod.fst).insertionSort (· ≤ ·) ≠ [] := by
    intro hnil
    have := hperm.length_eq
    rw [hnil] at this
    cases m with
    | nil => exact h rfl
    | cons e es => simp at this
  cases hs : (m.map Prod.fst).insertionSort (· ≤ ·) with
  | nil => exact absurd hs hne
  | cons k ks =>
    have : k ∈ (m.map Prod.fst).insertionSort (· ≤ ·) := by
      rw [hs]; exact List.mem_cons_self k ks
    have hk := hperm.subset this
    simpa [minKeyOf, hs] using hk

theorem length_removeKey_lt (k : Nat) (m : InnerCache V)
    (h : k ∈ m.map Prod.fst) : (removeKey k m).length < m.length := by
  induction m with
  | nil => simp at h
  | cons e es ih =>
    by_cases he : e.1 == k
    · simp [removeKey, he]
    · have : k ∈ es.map Prod.fst := by
        rcases List.mem_cons.mp h with h1 | h1
        · exact absurd (by simpa using h1.symm) (by simpa using he)
        · exact h1
      simp only [removeKey, he, if_false]
      simpa using Nat.succ_lt_succ (ih this)

theorem length_delMin_lt (m : InnerCache V) (h : m ≠ []) :
    (delMin m).length < m.length :=
  length_removeKey_lt _ m (minKeyOf_mem m h)

/-- The `while True` eviction loop of `dict_queue_add` for a key not yet
present: evict the minimal key while the size is not below `maxdict`,
then insert.  `none` models the uncaught `IndexError` that
`sorted([])[0]` raises when the loop reaches an empty dict with
`maxdict = 0`. -/
def evictInsert (maxdict : Nat) (key3 : Nat) (v : V) :
    InnerCache V → Option (InnerCache V)
  | [] => if ([] : InnerCache V).length < maxdict then some [(key3, v)]
          else none
  | a :: as =>
    if (a :: as).length < maxdict then some ((a :: as) ++ [(key3, v)])
    else evictInsert maxdict key3 v (delMin (a :: as))
  termination_by m => m.length
  decreasing_by
    exact length_delMin_lt _ (by simp)

/-- `WebsocketClient.dict_queue_add(dict, maxdict, key1, key2, key3,
value)` acting on the addressed inner dict: update in place when `key3`
is present, otherwise run the eviction loop and insert at the end. -/
def dict_queue_add (m : InnerCache V) (maxdict : Nat) (key3 : Nat) (v : V) :
    Option (InnerCache V) :=
  if (m.lookup key3).isSome then some (updateVal m key3 v)
  else evictInsert maxdict key3 v m

/-- An inbound websocket frame as `on_message` receives it: the Python
`None` value, a `bytes` payload that fails UTF-8 decoding, a `bytes`
payload that decodes to a string, or a string. -/
inductive RawMsg where
  | nullMsg : RawMsg
  | bytesUndecodable : RawMsg
  | bytesDecoded (s : String) : RawMsg
  | strMsg (s : String) : RawMsg
deriving DecidableEq

/-- `WebsocketClient.on_message(websocket, message)` acting on the
session state and caches (type `σ`).  `json.loads` (Python standard
library) is the boundary parameter `parse`: `none` models a raised
`json.JSONDecodeError`.  `handle` folds the effects of the fifty-odd
handler calls applied to a successfully parsed payload (type `J`); any
exception a handler raises is caught by the source's blanket `except`
clauses, so the call as a whole never raises — the model is a total
function.  The global `ssl_Mutual_exclusion` flag is set on entry and
cleared before every return; it is not part of the session state or the
caches and is omitted.  Control flow from the source: a `None` message,
an undecodable `bytes` payload, a message that is empty after `strip()`,
a message not starting with `{` or `[`, and a message `json.loads`
rejects all return with no handler invoked. -/
def on_message (parse : String → Option J) (handle : σ → J → σ)
    (st : σ) (msg : RawMsg) : σ :=
  match msg with
  | .nullMsg => st
  | .bytesUndecodable => st
  | .bytesDecoded s | .strMsg s =>
    let t := pyStrip s
    if t.data == [] then st
    else if !(pyStartsWith t "\x7b" || pyStartsWith t "[") then st
    else
      match parse t with
      | none => st                       -- json.JSONDecodeError: absorbed
      | some j => handle st j

/- ---------------------------------------------------------------------
   Order lemmas for the sort relations.
--------------------------------------------------------------------- -/

theorem charsLt_asymm : ∀ a b : List Char,
    charsLt a b = true → charsLt b a = false := by
  intro a
  induction a with
  | nil =>
    intro b h
    cases b with
    | nil => simp [charsLt] at h
    | cons c cs => simp [charsLt]
  | cons x xs ih =>
    intro b h
    cases b with
    | nil => simp [charsLt] at h
    | cons y ys =>
      simp only [charsLt] at h ⊢
      by_cases h1 : x.toNat < y.toNat
      · simp only [if_pos h1] at h
        have h2 : ¬ y.toNat < x.toNat := by omega
        simp [if_neg h2, if_pos h1]
      · simp only [if_neg h1] at h
        by_cases h2 : y.toNat < x.toNat
        · simp [if_pos h2] at h
        · simp only [if_neg h2] at h ⊢
          simp only [if_neg h1]
          exact ih ys h

theorem charsLt_trans : ∀ a b c : List Char,
    charsLt a b = true → charsLt b c = true → charsLt a c = true := by
  intro a
  induction a with
  | nil =>
    intro b c hab hbc
    cases c with
    | nil =>
      cases b with
      | nil => simp [charsLt] at hab
      | cons y ys => simp [charsLt] at hbc
    | cons z zs => simp [charsLt]
  | cons x xs ih =>
    intro b c hab hbc
    cases b with
    | nil => simp [charsLt] at hab
    | cons y ys =>
      cases c with
      | nil => simp [charsLt] at hbc
      | cons z zs =>
        simp only [charsLt] at hab hbc ⊢
        by_cases h1 : x.toNat < y.toNat <;>
          by_cases h2 : y.toNat < z.toNat <;>
            simp only [if_pos, if_neg, h1, h2] at hab hbc
        · have : x.toNat < z.toNat := by omega
          simp [this]
        · by_cases h3 : z.toNat < y.toNat
          · simp [if_pos h3] at hbc
          · have hyz : y.toNat = z.toNat := by omega
            have : x.toNat < z.toNat := by omega
            simp [this]
        · by_cases h3 : y.toNat < x.toNat
          · simp [if_pos h3] at hab
          · have hxy : x.toNat = y.toNat := by omega
            have : x.toNat < z.toNat := by omega
            simp [this]
        · by_cases h3 : y.toNat < x.toNat
          · simp [if_pos h3] at hab
          · by_cases h4 : z.toNat < y.toNat
            · simp [if_pos h4] at hbc
            · simp only [if_neg h3] at hab
              simp only [if_neg h4] at hbc
              have hxz1 : ¬ x.toNat < z.toNat := by omega
              have hxz2 : ¬ z.toNat < x.toNat := by omega
              simp only [if_neg hxz1, if_neg hxz2]
              exact ih ys zs hab hbc

theorem charsLt_eq_of_not_lt : ∀ a b : List Char,
    charsLt a b = false → charsLt b a = false → a = b := by
  intro a
  induction a with
  | nil =>
    intro b h1 h2
    cases b with
    | nil => rfl
    | cons y ys => simp [charsLt] at h1
  | cons x xs ih =>
    intro b h1 h2
    cases b with
    | nil => simp [charsLt] at h2
    | cons y ys =>
      simp only [charsLt] at h1 h2
      by_cases hxy : x.toNat < y.toNat
      · simp [hxy] at h1
      · by_cases hyx : y.toNat < x.toNat
        · simp [hyx] at h2
        · simp only [if_neg hxy, if_neg hyx] at h1 h2
          have hx : x = y :=
            Char.ext (UInt32.ext (show x.toNat = y.toNat by omega))
          rw [hx, ih ys h1 h2]

theorem charsLe_total (a b : List Char) :
    charsLe a b = true ∨ charsLe b a = true := by
  by_cases h : charsLt b a = true
  · right
    unfold charsLe
    simp [charsLt_asymm b a h]
  · left
    unfold charsLe
    simp at h
    simp [h]

theorem charsLe_trans (a b c : List Char) (hab : charsLe a b = true)
    (hbc : charsLe b c = true) : charsLe a c = true := by
  unfold charsLe at *
  simp only [Bool.not_eq_true'] at hab hbc ⊢
  by_cases hca : charsLt c a = true
  · -- from ¬ b<a and ¬ c<b and c<a derive a contradiction via trichotomy
    exfalso
    by_cases hba : charsLt a b = true
    · have := charsLt_trans c a b hca hba
      simp [this] at hbc
    · -- ¬ a<b and ¬ b<a: heads equal lists
      have hab' : charsLt a b = false := by simpa using hba
      have : a = b := charsLt_eq_of_not_lt a b hab' hab
      subst this
      simp [hca] at hbc
  · simpa using hca

theorem keyLe_total (a b : String × Option Int) :
    keyRel a b ∨ keyRel b a := by
  unfold keyRel keyLe
  by_cases h1 : -(payoutRank a) < -(payoutRank b)
  · left; simp [h1]
  · by_cases h2 : -(payoutRank b) < -(payoutRank a)
    · right; simp [h2]
    · by_cases h3 : otcRank a.1 < otcRank b.1
      · left; simp [h1, h2, h3]
      · by_cases h4 : otcRank b.1 < otcRank a.1
        · right; simp [h1, h2, h3, h4]
        · rcases charsLe_total a.1.data b.1.data with h | h
          · left; simp [h1, h2, h3, h4, h]
          · right; simp [h1, h2, h3, h4, h]

theorem keyLe_trans (a b c : String × Option Int) (hab : keyRel a b)
    (hbc : keyRel b c) : keyRel a c := by
  unfold keyRel keyLe at *
  split at hab
  case isTrue h1 =>
    split at hbc
    case isTrue h2 => simp [show -(payoutRank a) < -(payoutRank c) by omega]
    case isFalse h2 =>
      split at hbc
      case isTrue h3 => simp at hbc
      case isFalse h3 =>
        simp [show -(payoutRank a) < -(payoutRank c) by omega]
  case isFalse h1 =>
    split at hab
    case isTrue h2 => simp at hab
    case isFalse h2 =>
      -- payoutRank a = payoutRank b
      split at hbc
      case isTrue h3 => simp [show -(payoutRank a) < -(payoutRank c) by omega]
      case isFalse h3 =>
        split at hbc
        case isTrue h4 => simp at hbc
        case isFalse h4 =>
          -- payoutRank b = payoutRank c
          have hac1 : ¬ -(payoutRank a) < -(payoutRank c) := by omega
          have hac2 : ¬ -(payoutRank c) < -(payoutRank a) := by omega
          simp only [if_neg hac1, if_neg hac2]
          split at hab
          case isTrue h5 =>
            split at hbc
            case isTrue h6 => simp [show otcRank a.1 < otcRank c.1 by omega]
            case isFalse h6 =>
              split at hbc
              case isTrue h7 => simp at hbc
              case isFalse h7 =>
                simp [show otcRank a.1 < otcRank c.1 by omega]
          case isFalse h5 =>
            split at hab
            case isTrue h6 => simp at hab
            case isFalse h6 =>
              split at hbc
              case isTrue h7 => simp [show otcRank a.1 < otcRank c.1 by omega]
              case isFalse h7 =>
                split at hbc
                case isTrue h8 => simp at hbc
                case isFalse h8 =>
                  have ho1 : ¬ otcRank a.1 < otcRank c.1 := by omega
                  have ho2 : ¬ otcRank c.1 < otcRank a.1 := by omega
                  simp only [if_neg ho1, if_neg ho2]
                  exact charsLe_trans _ _ _ hab hbc

instance : IsTotal (String × Option Int) keyRel := ⟨keyLe_total⟩
instance : IsTrans (String × Option Int) keyRel := ⟨keyLe_trans⟩

/- ---------------------------------------------------------------------
   Claim-language order relations for C1.
--------------------------------------------------------------------- -/

/-- The claimed order between consecutive resolver entries: payout
descending with a null payout ranked as −1, then, at equal payout, the
non-OTC entry first, then symbol name ascending.  This is the variant
with the source's OTC test: `"-OTC"` occurring anywhere in the symbol. -/
def quoteBefore (a b : String × Option Int) : Prop :=
  payoutRank b < payoutRank a ∨
    (payoutRank a = payoutRank b ∧
      (otcRank a.1 < otcRank b.1 ∨
        (otcRank a.1 = otcRank b.1 ∧ charsLe a.1.data b.1.data = true)))

instance : DecidableRel quoteBefore := by
  intro a b
  unfold quoteBefore
  infer_instance

/-- The OTC flag as the claim words it: the symbol ends with the OTC
suffix. -/
def otcRankSuffix (s : String) : Nat :=
  if ("-OTC".data).isSuffixOf s.data then 1 else 0

/-- The claimed order read literally: `-OTC` as a suffix. -/
def quoteBeforeSuffix (a b : String × Option Int) : Prop :=
  payoutRank b < payoutRank a ∨
    (payoutRank a = payoutRank b ∧
      (otcRankSuffix a.1 < otcRankSuffix b.1 ∨
        (otcRankSuffix a.1 = otcRankSuffix b.1 ∧
          charsLe a.1.data b.1.data = true)))

instance : DecidableRel quoteBeforeSuffix := by
  intro a b
  unfold quoteBeforeSuffix
  infer_instance

theorem keyRel_imp_quoteBefore (a b : String × Option Int)
    (h : keyRel a b) : quoteBefore a b := by
  unfold keyRel keyLe at h
  unfold quoteBefore
  split at h
  case isTrue h1 => left; omega
  case isFalse h1 =>
    split at h
    case isTrue h2 => simp at h
    case isFalse h2 =>
      split at h
      case isTrue h3 => right; exact ⟨by omega, Or.inl h3⟩
      case isFalse h3 =>
        split at h
        case isTrue h4 => simp at h
        case isFalse h4 => right; exact ⟨by omega, Or.inr ⟨by omega, h⟩⟩

/-- Every list the resolver returns is an insertion sort (by the
source's key) of some assembled entry list — the early empty-list
returns included. -/
theorem listar_shape (api : ApiAtivos) (mercado : String) (tf : Nat)
    (l : List (String × Option Int))
    (h : listar_ativos_abertos_com_payout api mercado tf = some l) :
    ∃ d : List (String × Option Int), l = List.insertionSort keyRel d := by
  unfold listar_ativos_abertos_com_payout at h
  split at h
  · exact absurd h (by simp)
  · dsimp only at h
    split at h
    · exact ⟨[], by simpa using (Option.some.inj h).symm⟩
    · split at h
      · exact absurd h (by simp)
      · split at h
        · exact ⟨[], by simpa using (Option.some.inj h).symm⟩
        · exact ⟨_, (Option.some.inj h).symm⟩

/-- Claim C1, amended: every list the resolver returns is sorted by
payout descending (null ranked as −1), then, at equal payout, symbols
without the `-OTC` marker before symbols with it — where the source
classifies a symbol as OTC when `-OTC` occurs anywhere in the name, not
only as a suffix — then symbol name ascending. -/
theorem claim_C1 (api : ApiAtivos) (mercado : String) (tf : Nat)
    (l : List (String × Option Int))
    (h : listar_ativos_abertos_com_payout api mercado tf = some l) :
    List.Sorted quoteBefore l := by
  obtain ⟨d, rfl⟩ := listar_shape api mercado tf l h
  exact (List.sorted_insertionSort keyRel d).imp
    (fun hab => keyRel_imp_quoteBefore _ _ hab)

/-- A connected API whose Forex category has two open symbols, one of
which contains `-OTC` in the middle of its name. -/
def apiForexCx : ApiAtivos :=
  { checkConnect := true
    getAllOpenTime := Except.ok [("forex", [("AAA-OTCX", true), ("ZZZ", true)])]
    getAllInit := Except.ok none
    getAllProfit := Except.ok [] }

/-- Claim C1 as stated is false: for the input `apiForexCx` the resolver
returns `[ZZZ, AAA-OTCX]` (both payouts null), which is not sorted by
the claimed suffix-based order — read with `-OTC` as a *suffix*, neither
symbol is OTC, so the name tie-break would demand `AAA-OTCX` first. -/
theorem claim_C1_counterexample :
    listar_ativos_abertos_com_payout apiForexCx "Forex" 1 =
      some [("ZZZ", none), ("AAA-OTCX", none)] ∧
    ¬ List.Sorted quoteBeforeSuffix [("ZZZ", none), ("AAA-OTCX", none)] := by
  constructor
  · decide
  · decide

/-- Witness: the amended C1 at the concrete input `apiForexCx`. -/
theorem claim_C1_witness :
    List.Sorted quoteBefore [(("ZZZ" : String), (none : Option Int)),
      ("AAA-OTCX", none)] :=
  claim_C1 apiForexCx "Forex" 1 [("ZZZ", none), ("AAA-OTCX", none)] (by decide)

/- ---------------------------------------------------------------------
   C10: unsupported market segment.
--------------------------------------------------------------------- -/

theorem data_beq_eq (a b : String) : (a.data == b.data) = true ↔ a = b := by
  constructor
  · intro h
    cases a
    cases b
    exact congrArg String.mk (beq_iff_eq.mp h)
  · intro h
    subst h
    simp

theorem data_beq_false_of_ne (a b : String) (h : a ≠ b) :
    (a.data == b.data) = false := by
  rw [Bool.eq_false_iff]
  intro hc
  exact h ((data_beq_eq a b).mp hc)

/-- Claim C10: with a connected API, a market segment other than the
four supported ones ("Binário/Turbo", "Digital", "Forex", "Cripto")
makes the resolver return the empty list — the value a successful call
that found nothing open also returns — rather than the error value
`None`. -/
theorem claim_C10 (api : ApiAtivos) (mercado : String) (tf : Nat)
    (hc : api.checkConnect = true)
    (h1 : mercado ≠ "Binário/Turbo") (h2 : mercado ≠ "Digital")
    (h3 : mercado ≠ "Forex") (h4 : mercado ≠ "Cripto") :
    listar_ativos_abertos_com_payout api mercado tf = some [] := by
  have e1 : ("Digital".data == mercado.data) = false :=
    data_beq_false_of_ne _ _ (fun he => h2 he.symm)
  have e2 : ("Binário/Turbo".data == mercado.data) = false :=
    data_beq_false_of_ne _ _ (fun he => h1 he.symm)
  have e3 : ("Forex".data == mercado.data) = false :=
    data_beq_false_of_ne _ _ (fun he => h3 he.symm)
  have e4 : ("Cripto".data == mercado.data) = false :=
    data_beq_false_of_ne _ _ (fun he => h4 he.symm)
  simp [listar_ativos_abertos_com_payout, hc, alookup,
    MERCADO_PARA_TIPOS_API, e1, e2, e3, e4]

/-- Witness: the unsupported segment "Ações" on a connected API. -/
theorem claim_C10_witness :
    apiForexCx.checkConnect = true ∧
    listar_ativos_abertos_com_payout apiForexCx "Ações" 1 = some [] :=
  ⟨by decide, claim_C10 apiForexCx "Ações" 1 (by decide) (by decide)
    (by decide) (by decide) (by decide)⟩

/- ---------------------------------------------------------------------
   C2: no duplicate symbols in one resolver call.
--------------------------------------------------------------------- -/

/-- The inner dicts of a Python open/closed map have unique keys. -/
def OpenMapValid (raw : OpenMap) : Prop :=
  ∀ p ∈ raw, (p.2.map Prod.fst).Nodup

theorem alookup_mem {β : Type} (k : String) (l : List (String × β)) (v : β)
    (h : alookup k l = some v) : ∃ p ∈ l, p.2 = v := by
  induction l with
  | nil => simp [alookup] at h
  | cons e es ih =>
    unfold alookup at h
    split at h
    · exact ⟨e, List.mem_cons_self e es, Option.some.inj h⟩
    · obtain ⟨p, hp, hv⟩ := ih h
      exact ⟨p, List.mem_cons_of_mem e hp, hv⟩

/-- The two-part invariant of the Binary/Turbo accumulation loop: the
seen-set is exactly the list of names already emitted, and it has no
duplicates. -/
theorem addActive_inv (raw : OpenMap) (profits : ProfitMap) (tipo : String)
    (st : List (String × Option Int) × List String) (act : Nat × String)
    (h1 : st.1.map Prod.fst = st.2) (h2 : st.2.Nodup) :
    (addActive raw profits tipo st act).1.map Prod.fst =
      (addActive raw profits tipo st act).2 ∧
    (addActive raw profits tipo st act).2.Nodup := by
  unfold addActive
  dsimp only
  split
  · exact ⟨h1, h2⟩
  case isFalse hguard =>
    split
    · refine ⟨by simp [h1], ?_⟩
      have hany : st.2.any
          (fun n => n.data == (nomeCurto act.2).data) = false := by
        rcases Bool.or_eq_false_iff.mp (Bool.eq_false_iff.mpr hguard)
          with ⟨_, hb⟩
        exact hb
      have hnotin : nomeCurto act.2 ∉ st.2 := by
        intro hmem
        have := List.any_eq_false.mp hany _ hmem
        exact this (by simp)
      simp [List.nodup_append, h2, hnotin]
    · exact ⟨h1, h2⟩

theorem foldl_addActive_inv (raw : OpenMap) (profits : ProfitMap)
    (tipo : String) (actives : List (Nat × String))
    (st : List (String × Option Int) × List String)
    (h1 : st.1.map Prod.fst = st.2) (h2 : st.2.Nodup) :
    (actives.foldl (addActive raw profits tipo) st).1.map Prod.fst =
      (actives.foldl (addActive raw profits tipo) st).2 ∧
    (actives.foldl (addActive raw profits tipo) st).2.Nodup := by
  induction actives generalizing st with
  | nil => exact ⟨h1, h2⟩
  | cons a as ih =>
    obtain ⟨g1, g2⟩ := addActive_inv raw profits tipo st a h1 h2
    exact ih (addActive raw profits tipo st a) g1 g2

theorem binarioTurboEntries_nodup (raw : OpenMap) (ii : InitInfo)
    (profits : ProfitMap) (tipos : List String) :
    ((binarioTurboEntries raw ii profits tipos).map Prod.fst).Nodup := by
  unfold binarioTurboEntries
  suffices h : ∀ (ts : List String)
      (st : List (String × Option Int) × List String),
      st.1.map Prod.fst = st.2 → st.2.Nodup →
      (ts.foldl (fun st tipo =>
        match alookup tipo ii.result with
        | some actives => actives.foldl (addActive raw profits tipo) st
        | none => st) st).1.map Prod.fst =
        (ts.foldl (fun st tipo =>
          match alookup tipo ii.result with
          | some actives => actives.foldl (addActive raw profits tipo) st
          | none => st) st).2 ∧
      (ts.foldl (fun st tipo =>
        match alookup tipo ii.result with
        | some actives => actives.foldl (addActive raw profits tipo) st
        | none => st) st).2.Nodup by
    obtain ⟨g1, g2⟩ := h tipos ([], []) rfl List.nodup_nil
    rw [g1]
    exact g2
  intro ts
  induction ts with
  | nil => exact fun st h1 h2 => ⟨h1, h2⟩
  | cons t ts ih =>
    intro st h1 h2
    simp only [List.foldl_cons]
    cases halo : alookup t ii.result with
    | none => simpa [halo] using ih st h1 h2
    | some actives =>
      obtain ⟨g1, g2⟩ := foldl_addActive_inv raw profits t actives st h1 h2
      simpa [halo] using ih _ g1 g2

theorem openNames_nodup (raw : OpenMap) (tipo : String)
    (hv : OpenMapValid raw) : (openNames raw tipo).Nodup := by
  unfold openNames
  cases halo : alookup tipo raw with
  | none => exact List.nodup_nil
  | some d =>
    obtain ⟨p, hp, hpd⟩ := alookup_mem tipo raw d halo
    have hkeys : (d.map Prod.fst).Nodup := hpd ▸ hv p hp
    exact List.Nodup.sublist ((List.filter_sublist d).map Prod.fst) hkeys

theorem nodup_map_fst_of_perm {l l' : List (String × Option Int)}
    (hp : l.Perm l') (h : (l.map Prod.fst).Nodup) :
    (l'.map Prod.fst).Nodup := (hp.map Prod.fst).nodup_iff.mp h

theorem nodup_map_fst_filter (q : String × Option Int → Bool)
    (d : List (String × Option Int)) (h : (d.map Prod.fst).Nodup) :
    ((d.filter q).map Prod.fst).Nodup :=
  List.Nodup.sublist ((List.filter_sublist d).map Prod.fst) h

theorem digitalEntries_nodup (raw : OpenMap) (hv : OpenMapValid raw) :
    ((digitalEntries raw).map Prod.fst).Nodup := by
  unfold digitalEntries
  have hnames : ((openNames raw "digital").insertionSort strRel).Nodup :=
    (List.perm_insertionSort strRel _).nodup_iff.mpr
      (openNames_nodup raw "digital" hv)
  simpa [List.map_map, Function.comp_def] using hnames

theorem outrosEntries_nodup (raw : OpenMap) (tipos : List String) :
    ((outrosEntries raw tipos).map Prod.fst).Nodup := by
  unfold outrosEntries
  have hnames : ((tipos.foldl (fun acc tipo =>
      acc ++ openNames raw tipo) []).dedup.insertionSort strRel).Nodup :=
    (List.perm_insertionSort strRel _).nodup_iff.mpr (List.nodup_dedup _)
  simpa [List.map_map, Function.comp_def] using hnames

/-- The timeframe filter (whose problem set is empty) followed by the
final sort preserves distinctness of the symbol names. -/
theorem nodup_tf_sort (P : Prop) [Decidable P]
    (q : String × Option Int → Bool) (b : List (String × Option Int))
    (hb : (b.map Prod.fst).Nodup) :
    (((if P then b else b.filter q).insertionSort keyRel).map
      Prod.fst).Nodup := by
  apply nodup_map_fst_of_perm (List.perm_insertionSort keyRel _).symm
  split
  · exact hb
  · exact nodup_map_fst_filter q b hb

/-- Distinctness of the returned symbols, in helper form so that other
developments can reuse it. -/
theorem listar_names_nodup (api : ApiAtivos) (mercado : String) (tf : Nat)
    (l : List (String × Option Int))
    (hv : ∀ raw, api.getAllOpenTime = Except.ok raw → OpenMapValid raw)
    (h : listar_ativos_abertos_com_payout api mercado tf = some l) :
    (l.map Prod.fst).Nodup := by
  unfold listar_ativos_abertos_com_payout at h
  split at h
  · exact absurd h (by simp)
  · dsimp only at h
    split at h
    · obtain rfl : ([] : List (String × Option Int)) = l :=
        Option.some.inj h
      exact List.nodup_nil
    · split at h
      · exact absurd h (by simp)
      case _ raw hraw =>
        split at h
        · obtain rfl : ([] : List (String × Option Int)) = l :=
            Option.some.inj h
          exact List.nodup_nil
        · obtain rfl := (Option.some.inj h).symm
          have hvraw : OpenMapValid raw := hv raw hraw
          apply nodup_tf_sort
          have hD : ∀ init_info : Option InitInfo,
              (List.map Prod.fst
                (if (mercado.data == "Binário/Turbo".data
                      && init_info.isSome) = true then
                  binarioTurboEntries raw (init_info.getD ⟨false, []⟩)
                    (profitsOf api)
                    ((alookup mercado MERCADO_PARA_TIPOS_API).getD [])
                else if (mercado.data == "Digital".data) = true then
                  digitalEntries raw
                else
                  outrosEntries raw
                    ((alookup mercado
                      MERCADO_PARA_TIPOS_API).getD []))).Nodup := by
            intro init_info
            split
            · exact binarioTurboEntries_nodup raw _ _ _
            · split
              · exact digitalEntries_nodup raw hvraw
              · exact outrosEntries_nodup raw _
          exact hD _

/-- Claim C2: for any single resolver call that returns a list, no two
entries of the list carry the same symbol — even when two underlying
categories of the requested segment contain the same symbol.  The
hypothesis records that the keys of the Python open/closed dicts are
unique. -/
theorem claim_C2 (api : ApiAtivos) (mercado : String) (tf : Nat)
    (l : List (String × Option Int))
    (hv : ∀ raw, api.getAllOpenTime = Except.ok raw → OpenMapValid raw)
    (h : listar_ativos_abertos_com_payout api mercado tf = some l) :
    (l.map Prod.fst).Nodup :=
  listar_names_nodup api mercado tf l hv h

/-- A connected API whose `binary` and `turbo` categories both carry the
same open symbol `EURUSD`. -/
def apiDupCats : ApiAtivos :=
  { checkConnect := true
    getAllOpenTime := Except.ok
      [("binary", [("EURUSD", true)]), ("turbo", [("EURUSD", true)])]
    getAllInit := Except.ok (some
      { isSuccessful := true
        result := [("binary", [(1, "EURUSD")]), ("turbo", [(7, "EURUSD")])] })
    getAllProfit := Except.error () }

/-- Witness: C2 at a concrete input where both categories contain the
same symbol; the result lists it once. -/
theorem claim_C2_witness :
    listar_ativos_abertos_com_payout apiDupCats "Binário/Turbo" 1 =
      some [("EURUSD", none)] ∧
    (([(("EURUSD" : String), (none : Option Int))]).map Prod.fst).Nodup := by
  constructor
  · decide
  · exact claim_C2 apiDupCats "Binário/Turbo" 1 [("EURUSD", none)]
      (by
        intro raw h
        obtain rfl := (Except.ok.inj h).symm
        unfold OpenMapValid
        decide)
      (by decide)

/- ---------------------------------------------------------------------
   C4: failure policy of the resolver.
--------------------------------------------------------------------- -/

/-- The timeframe filter is the identity: the source's
`ativos_problematicos` set is empty, so both branches keep every entry. -/
theorem tfFilter_id (P : Prop) [Decidable P]
    (b : List (String × Option Int)) :
    (if P then b
     else b.filter (fun e =>
       !(([] : List String).any (fun n => n.data == e.1.data)))) = b := by
  split
  · rfl
  · simp

theorem alookup_eq_of_mem_nodup {β : Type} (d : List (String × β))
    (n : String) (v : β) (hnd : (d.map Prod.fst).Nodup) (hm : (n, v) ∈ d) :
    alookup n d = some v := by
  induction d with
  | nil => simp at hm
  | cons e es ih =>
    rcases List.mem_cons.mp hm with he | he
    · subst he
      simp [alookup]
    · have hne : ¬ (e.1.data == n.data) = true := by
        intro hbeq
        have : e.1 = n := (data_beq_eq e.1 n).mp hbeq
        have hn_keys : n ∈ es.map Prod.fst :=
          List.mem_map.mpr ⟨(n, v), he, rfl⟩
        rw [List.map_cons, List.nodup_cons] at hnd
        exact hnd.1 (this ▸ hn_keys)
      simp only [alookup, Bool.not_eq_true] at hne ⊢
      rw [hne]
      exact ih ((List.map_cons Prod.fst e es ▸ hnd :
        (e.1 :: es.map Prod.fst).Nodup).of_cons) he

theorem isOpenIn_of_mem_openNames (raw : OpenMap) (tipo n : String)
    (hv : OpenMapValid raw) (h : n ∈ openNames raw tipo) :
    isOpenIn raw tipo n = true := by
  unfold openNames at h
  unfold isOpenIn
  cases halo : alookup tipo raw with
  | none => rw [halo] at h; simp at h
  | some d =>
    rw [halo] at h
    obtain ⟨p, hp, hpd⟩ := alookup_mem tipo raw d halo
    have hkeys : (d.map Prod.fst).Nodup := hpd ▸ hv p hp
    obtain ⟨e, hef, he1⟩ := List.mem_map.mp h
    have hmem : e ∈ d := List.mem_of_mem_filter hef
    have hopen : e.2 = true := by simpa using List.of_mem_filter hef
    have : alookup n d = some true := by
      have : (n, true) ∈ d := by
        have : e = (n, true) := by
          cases e
          simp only [Prod.mk.injEq]
          exact ⟨he1, hopen⟩
        exact this ▸ hmem
      exact alookup_eq_of_mem_nodup d n true hkeys this
    simp [this]

theorem mem_foldl_append (f : String → List String) :
    ∀ (ts : List String) (acc : List String) (x : String),
      x ∈ ts.foldl (fun a t => a ++ f t) acc ↔
        x ∈ acc ∨ ∃ t ∈ ts, x ∈ f t := by
  intro ts
  induction ts with
  | nil => simp
  | cons t ts ih =>
    intro acc x
    simp only [List.foldl_cons]
    rw [ih]
    simp only [List.mem_append, List.mem_cons]
    constructor
    · rintro ((h | h) | ⟨u, hu, hx⟩)
      · exact Or.inl h
      · exact Or.inr ⟨t, Or.inl rfl, h⟩
      · exact Or.inr ⟨u, Or.inr hu, hx⟩
    · rintro (h | ⟨u, hu | hu, hx⟩)
      · exact Or.inl (Or.inl h)
      · exact Or.inl (Or.inr (hu ▸ hx))
      · exact Or.inr ⟨u, hu, hx⟩

theorem foldl_addActive_mem (raw : OpenMap) (profits : ProfitMap)
    (tipo : String) (actives : List (Nat × String))
    (st : List (String × Option Int) × List String) :
    ∀ e ∈ (actives.foldl (addActive raw profits tipo) st).1,
      e ∈ st.1 ∨
        (e.2 = payoutOf profits e.1 ∧ isOpenIn raw tipo e.1 = true) := by
  induction actives generalizing st with
  | nil => exact fun e he => Or.inl he
  | cons a as ih =>
    intro e he
    rcases ih (addActive raw profits tipo st a) e he with hin | hq
    · unfold addActive at hin
      dsimp only at hin
      split at hin
      · exact Or.inl hin
      · split at hin
        · rcases List.mem_append.mp hin with h | h
          · exact Or.inl h
          · obtain rfl := List.mem_singleton.mp h
            right
            refine ⟨rfl, ?_⟩
            assumption
        · exact Or.inl hin
    · exact Or.inr hq

theorem binarioTurboEntries_mem (raw : OpenMap) (ii : InitInfo)
    (profits : ProfitMap) (tipos : List String) :
    ∀ e ∈ binarioTurboEntries raw ii profits tipos,
      e.2 = payoutOf profits e.1 ∧
        ∃ tipo ∈ tipos, isOpenIn raw tipo e.1 = true := by
  unfold binarioTurboEntries
  suffices h : ∀ (ts : List String)
      (st : List (String × Option Int) × List String),
      ∀ e ∈ (ts.foldl (fun st tipo =>
        match alookup tipo ii.result with
        | some actives => actives.foldl (addActive raw profits tipo) st
        | none => st) st).1,
        e ∈ st.1 ∨ (e.2 = payoutOf profits e.1 ∧
          ∃ tipo ∈ ts, isOpenIn raw tipo e.1 = true) by
    intro e he
    rcases h tipos ([], []) e he with hin | hq
    · simp at hin
    · exact hq
  intro ts
  induction ts with
  | nil => exact fun st e he => Or.inl he
  | cons t ts ih =>
    intro st e he
    simp only [List.foldl_cons] at he
    cases halo : alookup t ii.result with
    | none =>
      rw [halo] at he
      rcases ih st e he with hin | ⟨hq, u, hu, ho⟩
      · exact Or.inl hin
      · exact Or.inr ⟨hq, u, List.mem_cons_of_mem t hu, ho⟩
    | some actives =>
      rw [halo] at he
      rcases ih _ e he with hin | ⟨hq, u, hu, ho⟩
      · rcases foldl_addActive_mem raw profits t actives st e hin with h | ⟨hq, ho⟩
        · exact Or.inl h
        · exact Or.inr ⟨hq, t, List.mem_cons_self t ts, ho⟩
      · exact Or.inr ⟨hq, u, List.mem_cons_of_mem t hu, ho⟩

theorem payoutOf_nil (nome : String) : payoutOf [] nome = none := rfl

theorem digitalEntries_mem (raw : OpenMap) (e : String × Option Int)
    (he : e ∈ digitalEntries raw) :
    e.2 = none ∧ e.1 ∈ openNames raw "digital" := by
  unfold digitalEntries at he
  obtain ⟨n, hn, rfl⟩ := List.mem_map.mp he
  exact ⟨rfl, (List.perm_insertionSort strRel _).subset hn⟩

theorem outrosEntries_mem (raw : OpenMap) (tipos : List String)
    (e : String × Option Int) (he : e ∈ outrosEntries raw tipos) :
    e.2 = none ∧ ∃ t ∈ tipos, e.1 ∈ openNames raw t := by
  unfold outrosEntries at he
  obtain ⟨n, hn, rfl⟩ := List.mem_map.mp he
  have hn2 : n ∈ (tipos.foldl (fun acc tipo =>
      acc ++ openNames raw tipo) []).dedup :=
    (List.perm_insertionSort strRel _).subset hn
  have hn3 := List.mem_dedup.mp hn2
  rcases (mem_foldl_append (openNames raw) tipos [] n).mp hn3 with h | h
  · simp at h
  · exact ⟨rfl, h⟩

/-- Membership in the final (timeframe-filtered, sorted) list comes
from membership in the assembled entries. -/
theorem mem_of_mem_tf_sort (P : Prop) [Decidable P]
    (q : String × Option Int → Bool) (b : List (String × Option Int))
    (e : String × Option Int)
    (he : e ∈ (if P then b else b.filter q).insertionSort keyRel) :
    e ∈ b := by
  have := (List.perm_insertionSort keyRel _).subset he
  split at this
  · exact this
  · exact List.mem_of_mem_filter this

/-- Claim C4: (i) if `get_all_open_time` raises, the resolver returns
the error value `None` outright (stated for any supported segment on a
connected API); (ii) for the Binário/Turbo segment, if the
payout-snapshot calls fail — `get_all_init` raises, returns falsy or
reports unsuccessful (`initInfoOf api = none`), or `get_all_profit`
raises — while the open/closed map call succeeds with data, the
resolver still returns a list whose entries are all open symbols with
payout `None`. -/
theorem claim_C4 :
    (∀ (api : ApiAtivos) (mercado : String) (tf : Nat),
      api.checkConnect = true →
      (alookup mercado MERCADO_PARA_TIPOS_API).getD [] ≠ [] →
      api.getAllOpenTime = Except.error () →
      listar_ativos_abertos_com_payout api mercado tf = none) ∧
    (∀ (api : ApiAtivos) (tf : Nat) (raw : OpenMap),
      api.checkConnect = true →
      api.getAllOpenTime = Except.ok raw → raw ≠ [] →
      OpenMapValid raw →
      (initInfoOf api = none ∨ api.getAllProfit = Except.error ()) →
      ∃ l, listar_ativos_abertos_com_payout api "Binário/Turbo" tf = some l ∧
        ∀ e ∈ l, e.2 = none ∧
          ∃ tipo ∈ ["binary", "turbo"], isOpenIn raw tipo e.1 = true) := by
  constructor
  · intro api mercado tf hc htipos hOT
    unfold listar_ativos_abertos_com_payout
    rw [hOT]
    simp [hc, List.isEmpty_iff, htipos]
  · intro api tf raw hc hOT hraw hv hfail
    have htab : alookup "Binário/Turbo" MERCADO_PARA_TIPOS_API =
        some ["binary", "turbo"] := by decide
    have hdig : ("Binário/Turbo".data == "Digital".data) = false := by
      decide
    unfold listar_ativos_abertos_com_payout
    rw [hOT]
    rcases hfail with hinit | hprof
    · rw [hinit]
      simp [hc, htab, List.isEmpty_iff, hraw, hdig]
      intro a b hab
      obtain ⟨h2, t, ht, hopen⟩ := outrosEntries_mem raw _ _ hab
      refine ⟨h2, ?_⟩
      have hoi := isOpenIn_of_mem_openNames raw t a hv hopen
      rcases List.mem_cons.mp ht with rfl | ht2
      · exact Or.inl hoi
      · rcases List.mem_cons.mp ht2 with rfl | ht3
        · exact Or.inr hoi
        · simp at ht3
    · have hprofits : profitsOf api = [] := by
        unfold profitsOf
        rw [hprof]
      rw [hprofits]
      cases hinit : initInfoOf api with
      | none =>
        simp [hc, htab, List.isEmpty_iff, hraw, hdig]
        intro a b hab
        obtain ⟨h2, t, ht, hopen⟩ := outrosEntries_mem raw _ _ hab
        refine ⟨h2, ?_⟩
        have hoi := isOpenIn_of_mem_openNames raw t a hv hopen
        rcases List.mem_cons.mp ht with rfl | ht2
        · exact Or.inl hoi
        · rcases List.mem_cons.mp ht2 with rfl | ht3
          · exact Or.inr hoi
          · simp at ht3
      | some ii =>
        simp [hc, htab, List.isEmpty_iff, hraw, hdig]
        intro a b hab
        obtain ⟨h2, t, ht, hopen⟩ :=
          binarioTurboEntries_mem raw ii [] _ _ hab
        refine ⟨by simpa [payoutOf_nil] using h2, ?_⟩
        rcases List.mem_cons.mp ht with rfl | ht2
        · exact Or.inl hopen
        · rcases List.mem_cons.mp ht2 with rfl | ht3
          · exact Or.inr hopen
          · simp at ht3

/-- A Binário/Turbo API whose init call reports unsuccessful while the
open map is fine. -/
def apiInitFail : ApiAtivos :=
  { checkConnect := true
    getAllOpenTime := Except.ok
      [("turbo", [("EURUSD", true), ("GBPUSD", false)])]
    getAllInit := Except.ok (some { isSuccessful := false, result := [] })
    getAllProfit := Except.ok [] }

/-- Witness: both parts of C4 at concrete inputs — an API whose open-map
call raises yields `None`; `apiInitFail` still yields the open symbol
`EURUSD` with a null payout. -/
theorem claim_C4_witness :
    listar_ativos_abertos_com_payout
      { checkConnect := true
        getAllOpenTime := Except.error ()
        getAllInit := Except.ok none
        getAllProfit := Except.ok [] } "Forex" 1 = none ∧
    (∃ l, listar_ativos_abertos_com_payout apiInitFail "Binário/Turbo" 1 =
        some l ∧
      ∀ e ∈ l, e.2 = none ∧
        ∃ tipo ∈ ["binary", "turbo"], isOpenIn
          [("turbo", [("EURUSD", true), ("GBPUSD", false)])] tipo e.1 = true) := by
  constructor
  · exact claim_C4.1 _ "Forex" 1 (by decide) (by decide) rfl
  · exact claim_C4.2 apiInitFail 1
      [("turbo", [("EURUSD", true), ("GBPUSD", false)])]
      (by decide) rfl (by decide)
      (by unfold OpenMapValid; decide)
      (Or.inl rfl)

/- ---------------------------------------------------------------------
   C3: the minimum-payout threshold filter.
--------------------------------------------------------------------- -/

/-- The entries the threshold keeps per the amended C3: an entry with a
non-null payout survives iff its payout is at least the threshold
(dropped iff strictly below). -/
def keptEntries (thr : Int) (l : List (String × Option Int)) :
    List (String × Int) :=
  l.filterMap (fun e =>
    match e.2 with
    | some p => if thr ≤ p then some (e.1, p) else none
    | none => none)

theorem alookup_append {β : Type} (s : String) (d d' : List (String × β)) :
    alookup s (d ++ d') =
      match alookup s d with
      | some v => some v
      | none => alookup s d' := by
  induction d with
  | nil => simp [alookup]
  | cons e es ih =>
    by_cases hb : (e.1.data == s.data) = true
    · simp [alookup, List.cons_append, hb]
    · simp only [List.cons_append, alookup, hb, if_false]
      exact ih

theorem dictAssign_fresh (d : List (String × Int)) (k : String) (v : Int)
    (h : alookup k d = none) : dictAssign d k v = d ++ [(k, v)] := by
  unfold dictAssign
  rw [h]
  simp

theorem exceptOk_bind {ε α β : Type} (x : α) (k : α → Except ε β) :
    (Except.ok x >>= k) = k x := rfl

theorem exceptError_bind {ε α β : Type} (err : ε) (k : α → Except ε β) :
    ((Except.error err : Except ε α) >>= k) = Except.error err := rfl

/-- With pairwise-distinct names, all payouts present, and all names
fresh for the accumulator, the conversion loop of
`buscar_ativos_payouts` appends exactly the kept entries. -/
theorem buscar_fold_ok (thr : Int) :
    ∀ (l : List (String × Option Int)) (d : List (String × Int)),
      (∀ e ∈ l, e.2 ≠ none) →
      (l.map Prod.fst).Nodup →
      (∀ s ∈ l.map Prod.fst, alookup s d = none) →
      l.foldlM (buscarStep thr) d = Except.ok (d ++ keptEntries thr l) := by
  intro l
  induction l with
  | nil => intro d _ _ _; simp [keptEntries]; rfl
  | cons e es ih =>
    intro d hsome hnd hfresh
    cases he : e.2 with
    | none => exact absurd he (hsome e (List.mem_cons_self e es))
    | some p =>
      have hnd2 : (es.map Prod.fst).Nodup := by
        rw [List.map_cons, List.nodup_cons] at hnd
        exact hnd.2
      have hhead : e.1 ∉ es.map Prod.fst := by
        rw [List.map_cons, List.nodup_cons] at hnd
        exact hnd.1
      have hfreshd : alookup e.1 d = none :=
        hfresh e.1 (by simp)
      rw [List.foldlM_cons]
      by_cases hthr : thr ≤ p
      · have hstep := ih (dictAssign d e.1 p)
          (fun x hx => hsome x (List.mem_cons_of_mem e hx)) hnd2
          (by
            intro s hs
            rw [dictAssign_fresh d e.1 p hfreshd, alookup_append,
              hfresh s (by simp [hs])]
            have hne : e.1 ≠ s := by
              intro hEq
              exact hhead (hEq ▸ hs)
            simp [alookup, data_beq_false_of_ne e.1 s hne])
        rw [show buscarStep thr d e = Except.ok (dictAssign d e.1 p) by
          unfold buscarStep
          rw [he]
          simp [hthr]]
        rw [exceptOk_bind, hstep, dictAssign_fresh d e.1 p hfreshd]
        simp [keptEntries, he, hthr]
      · have hstep := ih d
          (fun x hx => hsome x (List.mem_cons_of_mem e hx)) hnd2
          (fun s hs => hfresh s (by simp [hs]))
        rw [show buscarStep thr d e = Except.ok d by
          unfold buscarStep
          rw [he]
          simp [hthr]]
        rw [exceptOk_bind, hstep]
        simp [keptEntries, he, hthr]

/-- Any null payout in the list makes the conversion loop raise: Python
evaluates `None >= payout_minimo`, a `TypeError`. -/
theorem buscar_fold_error (thr : Int) :
    ∀ (l : List (String × Option Int)) (d : List (String × Int)),
      (∃ e ∈ l, e.2 = none) →
      l.foldlM (buscarStep thr) d = Except.error () := by
  intro l
  induction l with
  | nil => intro d h; simp at h
  | cons e es ih =>
    intro d h
    cases he : e.2 with
    | none =>
      rw [List.foldlM_cons]
      rw [show buscarStep thr d e = Except.error () by
        unfold buscarStep
        rw [he]]
      rw [exceptError_bind]
    | some p =>
      have hrest : ∃ x ∈ es, x.2 = none := by
        rcases h with ⟨x, hx, hx2⟩
        rcases List.mem_cons.mp hx with rfl | hxes
        · exact absurd he (by rw [hx2]; simp)
        · exact ⟨x, hxes, hx2⟩
      rw [List.foldlM_cons]
      by_cases hthr : thr ≤ p
      · rw [show buscarStep thr d e = Except.ok (dictAssign d e.1 p) by
          unfold buscarStep
          rw [he]
          simp [hthr]]
        rw [exceptOk_bind]
        exact ih _ hrest
      · rw [show buscarStep thr d e = Except.ok d by
          unfold buscarStep
          rw [he]
          simp [hthr]]
        rw [exceptOk_bind]
        exact ih _ hrest

/-- Claim C3, amended: for every resolver result and threshold, when
every payout is non-null, `buscar_ativos_payouts` returns the dict that
keeps exactly the entries with payout at least the threshold (drops
those strictly below); when any entry's payout is null — as for every
Digital/Forex/Cripto asset and every Binário/Turbo asset with no profit
data — the comparison `payout >= payout_minimo` raises a `TypeError`
and the call fails for every threshold, including 0, instead of keeping
the null-payout entry. -/
theorem claim_C3 (api : ApiAtivos) (mercado : String) (thr : Int)
    (l : List (String × Option Int))
    (hv : ∀ raw, api.getAllOpenTime = Except.ok raw → OpenMapValid raw)
    (hl : listar_ativos_abertos_com_payout api mercado 1 = some l) :
    ((∀ e ∈ l, e.2 ≠ none) →
      buscar_ativos_payouts api mercado thr =
        Except.ok (some (keptEntries thr l))) ∧
    ((∃ e ∈ l, e.2 = none) →
      buscar_ativos_payouts api mercado thr = Except.error ()) := by
  have hnd : (l.map Prod.fst).Nodup := listar_names_nodup api mercado 1 l hv hl
  constructor
  · intro hsome
    unfold buscar_ativos_payouts
    rw [hl]
    dsimp only
    rw [buscar_fold_ok thr l [] hsome hnd (by intro s _; rfl)]
    rfl
  · intro hnone
    unfold buscar_ativos_payouts
    rw [hl]
    dsimp only
    rw [buscar_fold_error thr l [] hnone]
    rfl

/-- Claim C3 as stated is false: for `apiForexCx` the resolver result
consists of null-payout entries, and with threshold 85 > 0 the lookup
raises a `TypeError` (modelled `Except.error ()`) instead of passing
the null-payout entries through the filter. -/
theorem claim_C3_counterexample :
    listar_ativos_abertos_com_payout apiForexCx "Forex" 1 =
      some [("ZZZ", none), ("AAA-OTCX", none)] ∧
    buscar_ativos_payouts apiForexCx "Forex" 85 = Except.error () := by
  constructor
  · decide
  · rfl

/-- Witness: amended C3 at concrete inputs — an all-non-null (empty)
result passes the filter, a null-payout result raises. -/
theorem claim_C3_witness :
    buscar_ativos_payouts apiForexCx "Cripto" 99 = Except.ok (some []) ∧
    buscar_ativos_payouts apiForexCx "Forex" 85 = Except.error () := by
  constructor
  · exact (claim_C3 apiForexCx "Cripto" 99 []
      (by
        intro raw h
        obtain rfl := (Except.ok.inj h).symm
        unfold OpenMapValid
        decide)
      (by decide)).1 (by simp)
  · exact (claim_C3 apiForexCx "Forex" 85 [("ZZZ", none), ("AAA-OTCX", none)]
      (by
        intro raw h
        obtain rfl := (Except.ok.inj h).symm
        unfold OpenMapValid
        decide)
      (by decide)).2 ⟨("ZZZ", none), by decide, rfl⟩

/- ---------------------------------------------------------------------
   C5: the bounded stream cache.
--------------------------------------------------------------------- -/

/-- A sequence of `dict_queue_add` calls against one addressed inner
dict, as the candle-stream handlers issue them. -/
def applyOps (V : Type) (maxdict : Nat) :
    List (Nat × V) → InnerCache V → Option (InnerCache V)
  | [], m => some m
  | op :: ops, m =>
    match dict_queue_add m maxdict op.1 op.2 with
    | none => none
    | some m' => applyOps V maxdict ops m'

theorem length_updateVal (m : InnerCache V) (k : Nat) (v : V) :
    (updateVal m k v).length = m.length := by
  simp [updateVal]

theorem keys_updateVal (m : InnerCache V) (k : Nat) (v : V) :
    (updateVal m k v).map Prod.fst = m.map Prod.fst := by
  induction m with
  | nil => rfl
  | cons e es ih =>
    simp only [updateVal, List.map_cons] at ih ⊢
    rw [show (if e.1 == k then (e.1, v) else e).1 = e.1 by split <;> rfl, ih]

theorem lookup_isSome_mem (m : InnerCache V) (k : Nat)
    (h : (m.lookup k).isSome = true) : k ∈ m.map Prod.fst := by
  induction m with
  | nil => simp [List.lookup] at h
  | cons e es ih =>
    rw [List.lookup] at h
    by_cases hb : k == e.1
    · have : k = e.1 := by simpa using hb
      simp [this]
    · rw [show (k == e.1) = false by simpa using hb] at h
      exact List.mem_cons_of_mem _ (ih h)

theorem mem_keys_removeKey (j : Nat) (m : InnerCache V) (k' : Nat)
    (h1 : k' ∈ m.map Prod.fst) (h2 : k' ∉ (removeKey j m).map Prod.fst) :
    k' = j := by
  induction m with
  | nil => simp at h1
  | cons e es ih =>
    by_cases hj : e.1 == j
    · have hej : e.1 = j := by simpa using hj
      rw [show removeKey j (e :: es) = es by simp [removeKey, hj]] at h2
      rw [List.map_cons] at h1
      rcases List.mem_cons.mp h1 with h | h
      · exact h ▸ hej
      · exact absurd h h2
    · rw [show removeKey j (e :: es) = e :: removeKey j es by
        simp [removeKey, hj]] at h2
      rw [List.map_cons] at h1 h2
      rw [List.mem_cons] at h1
      rw [List.mem_cons] at h2
      push_neg at h2
      rcases h1 with h | h
      · exact absurd h h2.1
      · exact ih h h2.2

/-- The eviction loop on a dict exactly at capacity (`maxdict ≥ 1`):
one eviction of the minimal key, then the insertion. -/
theorem evictInsert_at_capacity (maxdict : Nat) (hmax : 1 ≤ maxdict)
    (k : Nat) (v : V) (m : InnerCache V) (hlen : m.length = maxdict) :
    evictInsert maxdict k v m = some (delMin m ++ [(k, v)]) := by
  cases m with
  | nil =>
    exfalso
    simp at hlen
    omega
  | cons a as =>
    rw [evictInsert.eq_2]
    rw [if_neg (by omega)]
    have hlt : (delMin (a :: as)).length < maxdict := by
      have := length_delMin_lt (a :: as) (by simp)
      omega
    cases hd : delMin (a :: as) with
    | nil =>
      rw [evictInsert.eq_1, if_pos (by simpa using hmax)]
      simp
    | cons b bs =>
      rw [evictInsert.eq_2, if_pos (hd ▸ hlt)]

/-- One call of `dict_queue_add` from any state within capacity: the
call succeeds, the result is within capacity, the inserted key is
present afterwards, and the only key that can disappear is the minimal
one (in particular never the key just inserted). -/
theorem dict_queue_add_step (V : Type) (maxdict : Nat) (hmax : 1 ≤ maxdict)
    (m : InnerCache V) (k : Nat) (v : V) (hlen : m.length ≤ maxdict) :
    ∃ m', dict_queue_add m maxdict k v = some m' ∧
      m'.length ≤ maxdict ∧
      k ∈ m'.map Prod.fst ∧
      (∀ k' ∈ m.map Prod.fst, k' ∉ m'.map Prod.fst → k' = minKeyOf m) ∧
      ((m.lookup k).isSome = false → m.length = maxdict →
        m' = delMin m ++ [(k, v)]) := by
  unfold dict_queue_add
  by_cases hk : (m.lookup k).isSome = true
  · refine ⟨updateVal m k v, by rw [if_pos hk], ?_, ?_, ?_, ?_⟩
    · rw [length_updateVal]; exact hlen
    · rw [keys_updateVal]; exact lookup_isSome_mem m k hk
    · intro k' h1 h2
      rw [keys_updateVal] at h2
      exact absurd h1 h2
    · intro hfalse _
      rw [hk] at hfalse
      simp at hfalse
  · rw [if_neg hk]
    by_cases hlt : m.length < maxdict
    · refine ⟨m ++ [(k, v)], ?_, ?_, ?_, ?_, ?_⟩
      · cases m with
        | nil =>
          rw [evictInsert.eq_1, if_pos (by simpa using hlt)]
          simp
        | cons a as =>
          rw [evictInsert.eq_2, if_pos hlt]
      · simp
        omega
      · simp
      · intro k' h1 h2
        rw [List.map_append, List.mem_append] at h2
        push_neg at h2
        exact absurd h1 h2.1
      · intro _ hcap
        omega
    · have hcap : m.length = maxdict := by omega
      refine ⟨delMin m ++ [(k, v)],
        evictInsert_at_capacity maxdict hmax k v m hcap, ?_, ?_, ?_, ?_⟩
      · have hne : m ≠ [] := by
          intro hnil
          rw [hnil] at hcap
          simp at hcap
          omega
        have := length_delMin_lt m hne
        simp
        omega
      · simp
      · intro k' h1 h2
        simp only [List.map_append, List.mem_append] at h2
        push_neg at h2
        exact mem_keys_removeKey (minKeyOf m) m k' h1 h2.1
      · intro _ _
        rfl

/-- Claim C5: with capacity `maxdict ≥ 1`, (i) any insertion sequence
against an (initially empty) addressed inner dict keeps its size at
most `maxdict` after every call; (ii) a single call from any
within-capacity state succeeds, stays within capacity, keeps the key
just inserted, and evicts at most the single lowest-ordered key — in
the insert-over-capacity case exactly the minimal key, never the new
entry. -/
theorem claim_C5 (V : Type) (maxdict : Nat) (hmax : 1 ≤ maxdict) :
    (∀ ops : List (Nat × V), ∃ m, applyOps V maxdict ops [] = some m ∧
      m.length ≤ maxdict) ∧
    (∀ (m : InnerCache V) (k : Nat) (v : V), m.length ≤ maxdict →
      ∃ m', dict_queue_add m maxdict k v = some m' ∧
        m'.length ≤ maxdict ∧
        k ∈ m'.map Prod.fst ∧
        (∀ k' ∈ m.map Prod.fst, k' ∉ m'.map Prod.fst → k' = minKeyOf m) ∧
        ((m.lookup k).isSome = false → m.length = maxdict →
          m' = delMin m ++ [(k, v)])) := by
  constructor
  · suffices h : ∀ (ops : List (Nat × V)) (m : InnerCache V),
        m.length ≤ maxdict →
        ∃ m', applyOps V maxdict ops m = some m' ∧ m'.length ≤ maxdict by
      intro ops
      exact h ops [] (by simp)
    intro ops
    induction ops with
    | nil => exact fun m hm => ⟨m, rfl, hm⟩
    | cons op ops ih =>
      intro m hm
      obtain ⟨m1, hstep, hlen1, -, -, -⟩ :=
        dict_queue_add_step V maxdict hmax m op.1 op.2 hm
      obtain ⟨m2, hrest, hlen2⟩ := ih m1 hlen1
      exact ⟨m2, by rw [applyOps, hstep]; exact hrest, hlen2⟩
  · exact fun m k v hm => dict_queue_add_step V maxdict hmax m k v hm

/-- Witness: C5 at capacity 2 with a three-insert sequence and one
at-capacity step. -/
theorem claim_C5_witness :
    (∃ m, applyOps Nat 2 [(5, 50), (3, 30), (9, 90)] [] = some m ∧
      m.length ≤ 2) ∧
    (∃ m', dict_queue_add [(5, 50), (3, 30)] 2 9 90 = some m' ∧
      m'.length ≤ 2 ∧
      9 ∈ m'.map Prod.fst ∧
      (∀ k' ∈ ([(5, 50), (3, 30)] : InnerCache Nat).map Prod.fst,
        k' ∉ m'.map Prod.fst → k' = minKeyOf [(5, 50), (3, 30)]) ∧
      ((([(5, 50), (3, 30)] : InnerCache Nat).lookup 9).isSome = false →
        ([(5, 50), (3, 30)] : InnerCache Nat).length = 2 →
        m' = delMin [(5, 50), (3, 30)] ++ [(9, 90)])) :=
  ⟨(claim_C5 Nat 2 (by decide)).1 [(5, 50), (3, 30), (9, 90)],
   (claim_C5 Nat 2 (by decide)).2 [(5, 50), (3, 30)] 9 90 (by decide)⟩

/- ---------------------------------------------------------------------
   C6: malformed frames are absorbed.
--------------------------------------------------------------------- -/

/-- Claim C6: every malformed inbound frame — the `None` message,
undecodable bytes, a message empty after `strip()`, a message not
starting with `{` or `[`, or a message `json.loads` rejects — is
absorbed by `on_message`: the dispatcher returns without raising (the
model is a total function precisely because every exception path in
the source is caught) and without applying any handler effect, leaving
session state and caches unchanged. -/
theorem claim_C6 {σ J : Type} (parse : String → Option J)
    (handle : σ → J → σ) (st : σ) (msg : RawMsg)
    (hmal : msg = RawMsg.nullMsg ∨ msg = RawMsg.bytesUndecodable ∨
      (∃ s, (msg = RawMsg.bytesDecoded s ∨ msg = RawMsg.strMsg s) ∧
        ((pyStrip s).data = [] ∨
          (pyStartsWith (pyStrip s) "\x7b" = false ∧
            pyStartsWith (pyStrip s) "[" = false) ∨
          parse (pyStrip s) = none))) :
    on_message parse handle st msg = st := by
  rcases hmal with rfl | rfl | ⟨s, hform, hbad⟩
  · rfl
  · rfl
  · rcases hform with rfl | rfl <;>
    · simp only [on_message]
      rcases hbad with h1 | ⟨h2a, h2b⟩ | h3
      · rw [if_pos (by simpa using h1)]
      · by_cases hempty : ((pyStrip s).data == []) = true
        · rw [if_pos hempty]
        · rw [if_neg hempty, if_pos (by rw [h2a, h2b]; rfl)]
      · by_cases hempty : ((pyStrip s).data == []) = true
        · rw [if_pos hempty]
        · rw [if_neg hempty]
          by_cases hstart :
              (!(pyStartsWith (pyStrip s) "\x7b" ||
                pyStartsWith (pyStrip s) "[")) = true
          · rw [if_pos hstart]
          · rw [if_neg hstart, h3]

/-- Witness: a non-JSON text frame leaves the state unchanged even with
a handler that would mutate it. -/
theorem claim_C6_witness :
    on_message (fun _ => (none : Option Nat)) (fun (n : Nat) _ => n + 1) 7
      (RawMsg.strMsg "hello") = 7 :=
  claim_C6 (fun _ => (none : Option Nat)) (fun (n : Nat) _ => n + 1) 7
    (RawMsg.strMsg "hello")
    (Or.inr (Or.inr ⟨"hello", Or.inr rfl,
      Or.inr (Or.inl ⟨by decide, by decide⟩)⟩))

/- ---------------------------------------------------------------------
   C7, C8, C9: account selection and balance refresh.
--------------------------------------------------------------------- -/

theorem atualizar_saldo_conectado (api : LoginApi) (st : LoginState) :
    (atualizar_saldo api st).2.conectado = st.conectado := by
  unfold atualizar_saldo
  split
  · rfl
  · cases api.get_balance with
    | error e => rfl
    | ok b =>
      cases api.get_currency with
      | error e => rfl
      | ok c =>
        dsimp only
        split <;> rfl

/-- Claim C8, amended: a failing balance/currency refresh returns
failure, but the previously known-good values are *not* retained: an
exception from either read resets `saldo` to `0.0` and `moeda` to
`None` (`self.saldo = 0.0` in the `except` clause), and a null read
overwrites the stored values with the nulls read (assignment happens
before the `None` check); `ultimo_erro` is not modified — the error is
only logged, not recorded. -/
theorem claim_C8 (api : LoginApi) (st : LoginState)
    (hcon : st.conectado = true) :
    ((api.get_balance = Except.error () ∨
      (∃ b, api.get_balance = Except.ok b ∧
        api.get_currency = Except.error ())) →
      atualizar_saldo api st =
        (false, { st with saldo := some 0, moeda := none })) ∧
    (∀ b c, api.get_balance = Except.ok b → api.get_currency = Except.ok c →
      (b.isNone || c.isNone) = true →
      atualizar_saldo api st = (false, { st with saldo := b, moeda := c })) := by
  constructor
  · intro hfail
    unfold atualizar_saldo
    rw [hcon]
    rcases hfail with hb | ⟨b, hb, hc⟩
    · rw [hb]
      rfl
    · rw [hb, hc]
      rfl
  · intro b c hb hc hnull
    unfold atualizar_saldo
    rw [hcon, hb, hc]
    dsimp only
    rw [if_pos hnull]
    rfl

/-- The broker API used by the C8 counterexample: the balance read
raises. -/
def api8 : LoginApi :=
  { get_balance := Except.error ()
    get_currency := Except.ok (some "USD")
    get_balance_mode := Except.ok "PRACTICE"
    change_balance := fun _ => Except.ok true }

/-- A session that is connected with known-good balance and currency. -/
def st8 : LoginState :=
  { conectado := true
    tipo_conta := some "TREINAMENTO"
    saldo := some 100
    moeda := some "USD"
    ultimo_erro := none }

/-- Claim C8 as stated is false: with a raising balance read, the
refresh fails but the previously known-good `saldo = 100` is clobbered
to `0.0`, `moeda` to `None`, and no error is recorded in
`ultimo_erro`. -/
theorem claim_C8_counterexample :
    st8.saldo = some 100 ∧ st8.moeda = some "USD" ∧
    (atualizar_saldo api8 st8).1 = false ∧
    (atualizar_saldo api8 st8).2.saldo = some 0 ∧
    (atualizar_saldo api8 st8).2.moeda = none ∧
    (atualizar_saldo api8 st8).2.ultimo_erro = none :=
  ⟨rfl, rfl, rfl, rfl, rfl, rfl⟩

/-- Witness: the amended C8 at the concrete input `api8`/`st8`. -/
theorem claim_C8_witness :
    atualizar_saldo api8 st8 =
      (false, { st8 with saldo := some 0, moeda := none }) :=
  (claim_C8 api8 st8 rfl).1 (Or.inl rfl)

/-- Characterisation of `_selecionar_tipo_conta` when the broker
already reports the requested type: no `change_balance` request, only
a balance refresh, success iff the refresh succeeds. -/
theorem selecionar_on_target (api : LoginApi) (st : LoginState)
    (tipo : String) (hcon : st.conectado = true)
    (hmode : api.get_balance_mode =
      Except.ok ((alookup (pyUpper tipo) TIPO_CONTA).getD "PRACTICE")) :
    selecionar_tipo_conta api st tipo =
      ((atualizar_saldo api st).1,
       (if (atualizar_saldo api st).1 = true then
         { (atualizar_saldo api st).2 with
             tipo_conta := some (pyUpper tipo) }
        else (atualizar_saldo api st).2),
       []) := by
  unfold selecionar_tipo_conta
  rw [hcon, hmode]
  cases hupd : atualizar_saldo api st with
  | mk ok st1 =>
    cases ok
    · simp
    · simp

/-- Claim C7, amended: when the broker already reports the requested
account type active, account selection issues no `change_balance`
request — only balance and currency are re-read — and returns success
exactly when that refresh succeeds (not unconditionally); a second call
in the same situation again issues zero switch requests. -/
theorem claim_C7 (api : LoginApi) (st : LoginState) (tipo : String)
    (hcon : st.conectado = true)
    (hmode : api.get_balance_mode =
      Except.ok ((alookup (pyUpper tipo) TIPO_CONTA).getD "PRACTICE")) :
    (selecionar_tipo_conta api st tipo).2.2 = [] ∧
    ((selecionar_tipo_conta api st tipo).1 = true ↔
      (atualizar_saldo api st).1 = true) ∧
    (selecionar_tipo_conta api
      (selecionar_tipo_conta api st tipo).2.1 tipo).2.2 = [] := by
  have h1 := selecionar_on_target api st tipo hcon hmode
  have hcon2 : (selecionar_tipo_conta api st tipo).2.1.conectado = true := by
    rw [h1]
    dsimp only
    split
    · exact (atualizar_saldo_conectado api st).trans hcon
    · exact (atualizar_saldo_conectado api st).trans hcon
  refine ⟨by rw [h1], by rw [h1], ?_⟩
  rw [selecionar_on_target api _ tipo hcon2 hmode]

/-- The broker API used by the C7 counterexample: already on the
requested type, but the balance read returns null. -/
def api7 : LoginApi :=
  { get_balance := Except.ok none
    get_currency := Except.ok (some "USD")
    get_balance_mode := Except.ok "REAL"
    change_balance := fun _ => Except.ok true }

/-- Claim C7 as stated is false: invoked for REAL while the broker
already reports REAL, the call issues no switch request — but it
returns failure, not success, because the balance refresh fails. -/
theorem claim_C7_counterexample :
    (selecionar_tipo_conta api7 st8 "REAL").1 = false ∧
    (selecionar_tipo_conta api7 st8 "REAL").2.2 = [] :=
  ⟨rfl, rfl⟩

/-- The same broker with a healthy balance read. -/
def api7ok : LoginApi :=
  { get_balance := Except.ok (some 50)
    get_currency := Except.ok (some "USD")
    get_balance_mode := Except.ok "REAL"
    change_balance := fun _ => Except.ok true }

/-- Witness: the amended C7 at the concrete input `api7ok`/`st8`. -/
theorem claim_C7_witness :
    (selecionar_tipo_conta api7ok st8 "REAL").2.2 = [] ∧
    ((selecionar_tipo_conta api7ok st8 "REAL").1 = true ↔
      (atualizar_saldo api7ok st8).1 = true) ∧
    (selecionar_tipo_conta api7ok
      (selecionar_tipo_conta api7ok st8 "REAL").2.1 "REAL").2.2 = [] :=
  claim_C7 api7ok st8 "REAL" rfl rfl

/-- Claim C9, amended: when the broker reports a different active type
and a switch request is issued, a failed switch returns failure — but
the recorded account type survives only when the request itself is
rejected or raises; when the broker accepts the request and the
post-switch balance refresh then fails, `self.tipo_conta` is cleared to
`None` ("Por segurança, None" in the source), i.e. the previous
`AccountReady` type is lost rather than retained. -/
theorem claim_C9 (api : LoginApi) (st : LoginState) (tipo : String)
    (hcon : st.conectado = true) (m : String)
    (hmode : api.get_balance_mode = Except.ok m)
    (hne : (m.data ==
      ((alookup (pyUpper tipo) TIPO_CONTA).getD "PRACTICE").data) = false) :
    ((api.change_balance
        ((alookup (pyUpper tipo) TIPO_CONTA).getD "PRACTICE") =
          Except.ok false ∨
      api.change_balance
        ((alookup (pyUpper tipo) TIPO_CONTA).getD "PRACTICE") =
          Except.error ()) →
      selecionar_tipo_conta api st tipo =
        (false, st, [(alookup (pyUpper tipo) TIPO_CONTA).getD "PRACTICE"])) ∧
    (api.change_balance
        ((alookup (pyUpper tipo) TIPO_CONTA).getD "PRACTICE") =
          Except.ok true →
      (atualizar_saldo api st).1 = false →
      selecionar_tipo_conta api st tipo =
        (false, { (atualizar_saldo api st).2 with tipo_conta := none },
          [(alookup (pyUpper tipo) TIPO_CONTA).getD "PRACTICE"])) := by
  constructor
  · intro hcb
    unfold selecionar_tipo_conta
    rw [hcon, hmode]
    rcases hcb with hcb | hcb <;> simp [hne, hcb]
  · intro hcb hfail
    unfold selecionar_tipo_conta
    rw [hcon, hmode]
    cases hupd : atualizar_saldo api st with
    | mk ok st1 =>
      cases ok
      · simp [hne, hcb]
      · rw [hupd] at hfail
        simp at hfail

/-- The broker API used by the C9 counterexample: currently on
PRACTICE, accepts the switch to REAL, but the post-switch balance read
returns null so the refresh fails. -/
def api9 : LoginApi :=
  { get_balance := Except.ok none
    get_currency := Except.ok (some "USD")
    get_balance_mode := Except.ok "PRACTICE"
    change_balance := fun _ => Except.ok true }

/-- Claim C9 as stated is false: the switch to REAL was accepted, the
confirmation/balance refresh failed, the call returns failure — but
the session does not remain in its previous `TREINAMENTO` type: the
recorded type is cleared to `None`. -/
theorem claim_C9_counterexample :
    st8.tipo_conta = some "TREINAMENTO" ∧
    (selecionar_tipo_conta api9 st8 "REAL").1 = false ∧
    (selecionar_tipo_conta api9 st8 "REAL").2.1.tipo_conta = none :=
  ⟨rfl, rfl, rfl⟩

/-- Witness: the amended C9 at the concrete input `api9`/`st8`, both
for a rejected switch and for an accepted switch with failed refresh. -/
theorem claim_C9_witness :
    selecionar_tipo_conta
      { get_balance := Except.ok none
        get_currency := Except.ok (some "USD")
        get_balance_mode := Except.ok "PRACTICE"
        change_balance := fun _ => Except.ok false } st8 "REAL" =
      (false, st8, ["REAL"]) ∧
    selecionar_tipo_conta api9 st8 "REAL" =
      (false, { (atualizar_saldo api9 st8).2 with tipo_conta := none },
        ["REAL"]) :=
  ⟨(claim_C9 _ st8 "REAL" rfl "PRACTICE" rfl (by decide)).1 (Or.inl rfl),
   (claim_C9 api9 st8 "REAL" rfl "PRACTICE" rfl (by decide)).2 rfl rfl⟩
